import Mathlib

/-!
Verification of `export_help_scout_docs.py`: a shallow embedding of the
HTTP-client layer (`safe_get`, `help_scout_get`), the pagination walker
(`get_paged_help_scout_entities`), the filename chooser (`unique_filename`),
the article exporter (`fetch_articles`) and the orchestration in `main`,
together with theorems settling the specification claims.

Conventions of the embedding:
* The network is an oracle `net : Nat → Req → HttpOutcome J` giving, for each
  attempt index and request, either decoded JSON or an HTTP error.
* Machine effects (requests issued, `time.sleep(REQUEST_DELAY)` calls, file
  writes, `mkdir`) are recorded explicitly in the returned traces.
* Unbounded `while` loops from the source are given a fuel parameter and
  return `none`/a dedicated constructor when the fuel runs out; the source
  loop diverges exactly where the embedding runs out of every finite fuel.
-/

namespace HelpScoutExport

/-- `REQUEST_DELAY = 1  # seconds` from the source. -/
def REQUEST_DELAY : Nat := 1

/-! ### base64 (Python `base64.b64encode` on ASCII input) -/

/-- The standard base64 alphabet. -/
def base64Alphabet : List Char :=
  "ABCDEFGHIJKLMNOPQRSTUVWXYZabcdefghijklmnopqrstuvwxyz0123456789+/".data

/-- The base64 digit for a 6-bit value. -/
def b64char (n : Nat) : Char := base64Alphabet.getD n 'A'

/-- Base64-encode a byte list, with `=` padding, as `base64.b64encode` does. -/
def b64encodeBytes : List Nat → List Char
  | [] => []
  | [b1] => [b64char (b1 / 4), b64char (b1 % 4 * 16), '=', '=']
  | [b1, b2] => [b64char (b1 / 4), b64char (b1 % 4 * 16 + b2 / 16),
      b64char (b2 % 16 * 4), '=']
  | b1 :: b2 :: b3 :: rest =>
      b64char (b1 / 4) :: b64char (b1 % 4 * 16 + b2 / 16) ::
      b64char (b2 % 16 * 4 + b3 / 64) :: b64char (b3 % 64) :: b64encodeBytes rest

/-- Python `base64.b64encode` on the ASCII encoding of `s`, decoded back to ASCII. -/
def b64encode (s : String) : String :=
  String.mk (b64encodeBytes (s.data.map Char.toNat))

/-! ### The HTTP layer: `safe_get` -/

/-- An outgoing request: the URL and the `Authorization` header, if any. -/
structure Req where
  url : String
  authorization : Option String
deriving DecidableEq, Repr

/-- The kind and message of an `HTTPError` (preserved unmodified on re-raise). -/
structure HttpErrInfo where
  kind : String
  msg : String
deriving DecidableEq, Repr

/-- A raw HTTP outcome for one attempt: decoded JSON data, or an `HTTPError`. -/
inductive HttpOutcome (J : Type) where
  | success (data : J)
  | httpError (e : HttpErrInfo)
deriving DecidableEq

/-- How `safe_get` terminates: returning decoded JSON, re-raising the final
`HTTPError`, or reaching the trailing bare `raise Exception` after the loop. -/
inductive GetResult (J : Type) where
  | ok (data : J)
  | raised (e : HttpErrInfo)
  | internalException
deriving DecidableEq

/-- Trace of one `safe_get` call: its result, the requests it issued in order,
and how many `time.sleep(REQUEST_DELAY)` calls it made. -/
structure GetTrace (J : Type) where
  result : GetResult J
  requests : List Req
  sleeps : Nat
deriving DecidableEq

/-- The `url += ... urlencode(params)` step (a question mark then the encoded
parameters) when `params` is truthy;
`params = none` models both `params=None` and an empty dict. -/
def appendQs (url : String) (params : Option String) : String :=
  match params with
  | some qs => url ++ "?" ++ qs
  | none => url

/-- The `Authorization` header `safe_get` adds when `auth` is truthy:
the string `Basic` then a space then `base64(username ++ ":" ++ password)`,
with the password defaulted to the empty string
when the supplied password is `None`. -/
def mkAuthHeader : Option (String × Option String) → Option String
  | none => none
  | some (username, password) =>
      some ("Basic " ++ b64encode (username ++ ":" ++ password.getD ""))

/-- The body of the `for attempt in range(retries)` loop of `safe_get`.  Note that
the `url += ...` of the source mutates `url`, so the recursive call continues
from the already-extended URL. -/
def safe_get_go {J : Type} (net : Nat → Req → HttpOutcome J) (params : Option String)
    (auth : Option (String × Option String)) (retries : Nat) (url : String)
    (attempt : Nat) : GetTrace J :=
  if _h : attempt < retries then
    let url' := appendQs url params
    let req : Req := ⟨url', mkAuthHeader auth⟩
    match net attempt req with
    | .success d => ⟨.ok d, [req], 0⟩
    | .httpError e =>
        if attempt < retries - 1 then
          let t := safe_get_go net params auth retries url' (attempt + 1)
          ⟨t.result, req :: t.requests, t.sleeps + 1⟩
        else
          ⟨.raised e, [req], 0⟩
  else
    ⟨.internalException, [], 0⟩
termination_by retries - attempt
decreasing_by omega

/-- `safe_get(url, params=params, auth=auth, retries=retries)`. -/
def safe_get {J : Type} (net : Nat → Req → HttpOutcome J) (url : String)
    (params : Option String) (auth : Option (String × Option String))
    (retries : Nat) : GetTrace J :=
  safe_get_go net params auth retries url 0

/-- `help_scout_get(url, params, token)`: wraps `safe_get` with
`auth = (token, "x")` when a token is supplied, and the default `retries=2`. -/
def help_scout_get {J : Type} (net : Nat → Req → HttpOutcome J) (url : String)
    (params : Option String) (token : Option String) : GetTrace J :=
  match token with
  | some t => safe_get net url params (some (t, some "x")) 2
  | none => safe_get net url params none 2

/-! ### The pagination walker: `get_paged_help_scout_entities` -/

/-- The part of a paged response the walker reads:
`data[entity_name]["page"]`, `data[entity_name]["pages"]`,
`data[entity_name]["items"]`. -/
structure Page (E : Type) where
  page : Nat
  pages : Nat
  items : List E
deriving DecidableEq

/-- The `while current_page is None or current_page < total_pages` condition;
`none` is the initial `current_page = None` state, `some (cp, tp)` holds
`(current_page, total_pages)` after an iteration. -/
def pagedLoopCond : Option (Nat × Nat) → Bool
  | none => true
  | some (cp, tp) => decide (cp < tp)

/-- The `while` loop of `get_paged_help_scout_entities`, with fuel.
`server n` is `data[entity_name]` of the response to the page-`n` request;
the result also returns the list of page numbers requested, in order.
Returns `none` when the fuel runs out. -/
def get_paged_go {E : Type} (server : Nat → Page E) (fuel : Nat)
    (st : Option (Nat × Nat)) (next_page : Nat) (entities : List E)
    (fetched : List Nat) : Option (List E × List Nat) :=
  if pagedLoopCond st then
    match fuel with
    | 0 => none
    | Nat.succ fuel' =>
      let data := server next_page
      get_paged_go server fuel' (some (data.page, data.pages)) (data.page + 1)
        (entities ++ data.items) (fetched ++ [next_page])
  else
    some (entities, fetched)

/-- `get_paged_help_scout_entities(token, url, entity_name)`:
`current_page = None`, `next_page = 1`, `entities = []`. -/
def get_paged {E : Type} (server : Nat → Page E) (fuel : Nat) :
    Option (List E × List Nat) :=
  get_paged_go server fuel none 1 [] []

/-- The concatenation, in page order, of the items of the `n` pages
`j, j+1, ..., j+n-1`. -/
def pagesItems {E : Type} (server : Nat → Page E) (j : Nat) : Nat → List E
  | 0 => []
  | Nat.succ n => (server j).items ++ pagesItems server (j + 1) n

/-- The page numbers `j, j+1, ..., j+n-1` in order. -/
def pageRange (j : Nat) : Nat → List Nat
  | 0 => []
  | Nat.succ n => j :: pageRange (j + 1) n

/-! ### `unique_filename` -/

/-- The loop of `unique_filename`, with fuel: `suffix` and `counter` are the
Python loop state, `fs name = true` models `(directory_path / name).exists()`.
Returns the chosen file name (the part after `directory_path /`). -/
def unique_filename_go (fs : String → Bool) (base ext : String) :
    Nat → String → Nat → Option String
  | 0, _, _ => none
  | Nat.succ fuel, suffix, counter =>
      if fs (base ++ suffix ++ ext) then
        unique_filename_go fs base ext fuel ("-" ++ toString counter) (counter + 1)
      else
        some (base ++ suffix ++ ext)

/-- `unique_filename(directory_path, base_filename, extension)`:
`suffix = ""`, `counter = 1`. -/
def unique_filename (fs : String → Bool) (base ext : String) (fuel : Nat) :
    Option String :=
  unique_filename_go fs base ext fuel "" 1

/-- The `n`-th candidate name the loop probes: `base ++ ext` for `n = 0`,
`base ++ "-" ++ toString n ++ ext` for `n ≥ 1`. -/
def suffixOf : Nat → String
  | 0 => ""
  | Nat.succ n => "-" ++ toString (n + 1)

/-- The `n`-th candidate file name probed by `unique_filename`. -/
def candidate (base ext : String) (n : Nat) : String :=
  base ++ suffixOf n ++ ext

/-! ### JSON documents and the article exporter: `fetch_articles` -/

/-- Decoded JSON values, as far as the exporter inspects them. -/
inductive Json where
  | str (s : String)
  | num (n : Int)
  | obj (fields : List (String × Json))
  | arr (elems : List Json)

/-- Dictionary lookup `data[k]` on a JSON object; `none` models a `KeyError`
(or indexing a non-object). -/
def Json.get : Json → String → Option Json
  | .obj fields, k => fields.lookup k
  | _, _ => none

/-- `f"https://docsapi.helpscout.net/v1/articles/{article_id}"`. -/
def articleUrl (article_id : Int) : String :=
  "https://docsapi.helpscout.net/v1/articles/" ++ toString article_id

/-- One `json.dump(data, f, indent=2)` call: the target file name (within the
output directory), the full document written and the `indent` argument. -/
structure FileWrite where
  path : String
  content : Json
  indent : Nat

/-- How `fetch_articles` terminates: `exit(1)` because the directory exists,
an uncaught exception from a fetch or a missing key, fuel exhaustion inside
`unique_filename`, or normal completion carrying the returned `articles` list
and the final directory contents. -/
inductive FetchResult where
  | exited (code : Nat)
  | raisedError
  | outOfFuel
  | finished (articles : List Json) (dirFiles : List String)

/-- The `for i, article_id in enumerate(article_ids)` loop of
`fetch_articles`.  `hsGet url` is the decoded document returned by
`help_scout_get(url, token=token)` (`none` models a raised `HTTPError`
propagating out).  `dirFiles` is the set of file names already present in the
output directory; each write adds the new name.  `articles` is the accumulator
list of the function, which the source never appends to.  Alongside the result,
the URLs fetched and the writes performed are returned in order.
The model covers documents whose `article["slug"]` is a JSON string, which is
what the Docs API returns; other shapes are mapped to `raisedError`. -/
def fetch_loop (hsGet : String → Option Json) (ids : List Int)
    (dirFiles : List String) (articles : List Json) (ufuel : Nat) :
    FetchResult × List String × List FileWrite :=
  match ids with
  | [] => (.finished articles dirFiles, [], [])
  | id :: rest =>
    let url := articleUrl id
    match hsGet url with
    | none => (.raisedError, [url], [])
    | some data =>
      match data.get "article" with
      | none => (.raisedError, [url], [])
      | some article =>
        match article.get "slug" with
        | some (Json.str slug) =>
          match unique_filename (fun s => dirFiles.contains s) slug ".json" ufuel with
          | none => (.outOfFuel, [url], [])
          | some path =>
            let t := fetch_loop hsGet rest (dirFiles ++ [path]) articles ufuel
            (t.1, url :: t.2.1, ⟨path, data, 2⟩ :: t.2.2)
        | _ => (.raisedError, [url], [])

/-- `fetch_articles(article_ids, directory_path, token)`: first
`directory_path.mkdir(exist_ok=False)` — `exit(1)` when the directory already
exists — then the fetch loop over a freshly created (empty) directory.
The final `Bool` records whether `mkdir` created the directory. -/
def fetch_articles (hsGet : String → Option Json) (ids : List Int)
    (dirExists : Bool) (ufuel : Nat) :
    FetchResult × List String × List FileWrite × Bool :=
  if dirExists then (.exited 1, [], [], false)
  else
    let t := fetch_loop hsGet ids [] [] ufuel
    (t.1, t.2.1, t.2.2, true)

/-! ### Orchestration: `export_help_scout_docs` and `main` -/

/-- `f"https://docsapi.helpscout.net/v1/collections/{collection_id}/articles"`. -/
def collectionArticlesUrl (collection_id : String) : String :=
  "https://docsapi.helpscout.net/v1/collections/" ++ collection_id ++ "/articles"

/-- `article["id"]` of each listed article summary, as
`get_article_ids` extracts them; `none` models a `KeyError`.  The model covers
numeric ids, which is what the Docs API returns. -/
def extractIds (articles : List Json) : Option (List Int) :=
  articles.mapM fun a =>
    match a.get "id" with
    | some (Json.num n) => some n
    | _ => none

/-- The observable outcome of a `main` run: the exit status when the process
stops early (`parser.error` exits with status 2, the exporter guard with 1),
and otherwise the `len(articles)` count that the final
`"Saved all {len(articles)} articles"` log line reports. -/
inductive MainResult where
  | usageError (code : Nat)
  | exited (code : Nat)
  | raisedError
  | outOfFuel
  | completed (reportedCount : Nat)

/-- The effects of a `main` run: network requests issued (in order), file
writes performed (in order), and whether the output directory was created. -/
structure RunEffects where
  netCalls : List String
  writes : List FileWrite
  madeDir : Bool

/-- `export_help_scout_docs(token, collection_id, directory_path)`:
`get_article_ids` via the pagination walker, then `fetch_articles`, then the
`"Saved all {len(articles)} articles"` report.  `pager n` is the
`data["articles"]` object of the page-`n` listing response. -/
def export_help_scout_docs (pager : Nat → Page Json) (hsGet : String → Option Json)
    (collection_id : String) (dirExists : Bool) (pfuel ufuel : Nat) :
    MainResult × RunEffects :=
  match get_paged pager pfuel with
  | none => (.outOfFuel, ⟨[], [], false⟩)
  | some (listed, pagesFetched) =>
    let pagedCalls := pagesFetched.map
      (fun n => collectionArticlesUrl collection_id ++ "?page=" ++ toString n)
    match extractIds listed with
    | none => (.raisedError, ⟨pagedCalls, [], false⟩)
    | some ids =>
      let t := fetch_articles hsGet ids dirExists ufuel
      match t.1 with
      | .exited c => (.exited c, ⟨pagedCalls ++ t.2.1, t.2.2.1, t.2.2.2⟩)
      | .raisedError => (.raisedError, ⟨pagedCalls ++ t.2.1, t.2.2.1, t.2.2.2⟩)
      | .outOfFuel => (.outOfFuel, ⟨pagedCalls ++ t.2.1, t.2.2.1, t.2.2.2⟩)
      | .finished articles _ =>
          (.completed articles.length, ⟨pagedCalls ++ t.2.1, t.2.2.1, t.2.2.2⟩)

/-- The tail of `main` once a token and a collection id are in hand: resolve
the output directory, refuse to run when it already exists
(`parser.error` → exit status 2), otherwise run the export. -/
def main_run (pager : Nat → Page Json) (hsGet : String → Option Json)
    (collection_id : String) (dirExists : Bool) (pfuel ufuel : Nat) :
    MainResult × RunEffects :=
  if dirExists then (.usageError 2, ⟨[], [], false⟩)
  else export_help_scout_docs pager hsGet collection_id dirExists pfuel ufuel


/-! ### Helper lemmas about `safe_get_go` -/

/-- Every request issued by the retry loop carries the header built by
`mkAuthHeader auth`. -/
theorem safe_get_go_auth {J : Type} (net : Nat → Req → HttpOutcome J) (params : Option String)
    (auth : Option (String × Option String)) (retries : Nat) :
    ∀ url attempt, ∀ req ∈ (safe_get_go net params auth retries url attempt).requests,
      req.authorization = mkAuthHeader auth := by
  intro url attempt
  induction url, attempt using safe_get_go.induct net params auth retries with
  | case1 url attempt hlt url' req d hnet =>
    intro r hr
    rw [safe_get_go, dif_pos hlt] at hr
    dsimp only at hr
    rw [show net attempt ⟨appendQs url params, mkAuthHeader auth⟩
        = HttpOutcome.success d from hnet] at hr
    dsimp only at hr
    simp only [List.mem_singleton] at hr
    subst hr
    rfl
  | case2 url attempt hlt url' req e hnet hcont ih =>
    intro r hr
    rw [safe_get_go, dif_pos hlt] at hr
    dsimp only at hr
    rw [show net attempt ⟨appendQs url params, mkAuthHeader auth⟩
        = HttpOutcome.httpError e from hnet] at hr
    dsimp only at hr
    rw [if_pos hcont] at hr
    dsimp only at hr
    rcases List.mem_cons.mp hr with h | h
    · subst h; rfl
    · exact ih r h
  | case3 url attempt hlt url' req e hnet hcont =>
    intro r hr
    rw [safe_get_go, dif_pos hlt] at hr
    dsimp only at hr
    rw [show net attempt ⟨appendQs url params, mkAuthHeader auth⟩
        = HttpOutcome.httpError e from hnet] at hr
    dsimp only at hr
    rw [if_neg hcont] at hr
    dsimp only at hr
    simp only [List.mem_singleton] at hr
    subst hr
    rfl
  | case4 url attempt hge =>
    intro r hr
    rw [safe_get_go, dif_neg hge] at hr
    simp at hr

/-- As long as attempts remain, the loop issues at least one request. -/
theorem safe_get_go_requests_ne_nil {J : Type} (net : Nat → Req → HttpOutcome J)
    (params : Option String) (auth : Option (String × Option String)) (retries : Nat)
    (url : String) (attempt : Nat) (hlt : attempt < retries) :
    (safe_get_go net params auth retries url attempt).requests ≠ [] := by
  rw [safe_get_go, dif_pos hlt]
  dsimp only
  cases hnet : net attempt ⟨appendQs url params, mkAuthHeader auth⟩ with
  | success d => simp
  | httpError e =>
    by_cases hcont : attempt < retries - 1
    · simp only [if_pos hcont]; simp
    · simp only [if_neg hcont]; simp

/-- `url` with the encoded query string appended `k` times. -/
def appendedK (url qs : String) : Nat → String
  | 0 => url
  | Nat.succ k => appendedK url qs k ++ "?" ++ qs

/-- Shifting the base of `appendedK` by one appended copy. -/
theorem appendedK_shift (url qs : String) :
    ∀ n, appendedK (url ++ "?" ++ qs) qs n = appendedK url qs (n + 1) := by
  intro n
  induction n with
  | zero => rfl
  | succ n ih =>
    rw [appendedK, ih]
    rfl

/-- With a nonempty query string, the request at offset `k` of the issued list
carries the base URL with the parameters appended `k + 1` times: the loop
re-appends them before every attempt. -/
theorem safe_get_go_req_shape {J : Type} (net : Nat → Req → HttpOutcome J) (qs : String)
    (auth : Option (String × Option String)) (retries : Nat) :
    ∀ url attempt, ∀ (k : Nat) (req : Req),
      ((safe_get_go net (some qs) auth retries url attempt).requests)[k]? = some req →
      req = ⟨appendedK url qs (k + 1), mkAuthHeader auth⟩ := by
  intro url attempt
  induction url, attempt using safe_get_go.induct net (some qs) auth retries with
  | case1 url attempt hlt url' req d hnet =>
    intro k r hr
    rw [safe_get_go, dif_pos hlt] at hr
    dsimp only at hr
    rw [show net attempt ⟨appendQs url (some qs), mkAuthHeader auth⟩
        = HttpOutcome.success d from hnet] at hr
    dsimp only at hr
    cases k with
    | zero =>
      simp only [List.getElem?_cons_zero, Option.some.injEq] at hr
      subst hr
      rfl
    | succ k => simp at hr
  | case2 url attempt hlt url' req e hnet hcont ih =>
    intro k r hr
    rw [safe_get_go, dif_pos hlt] at hr
    dsimp only at hr
    rw [show net attempt ⟨appendQs url (some qs), mkAuthHeader auth⟩
        = HttpOutcome.httpError e from hnet] at hr
    dsimp only at hr
    rw [if_pos hcont] at hr
    dsimp only at hr
    cases k with
    | zero =>
      simp only [List.getElem?_cons_zero, Option.some.injEq] at hr
      subst hr
      rfl
    | succ k =>
      simp only [List.getElem?_cons_succ] at hr
      rw [ih k r hr, show url' = url ++ "?" ++ qs from rfl, appendedK_shift]
  | case3 url attempt hlt url' req e hnet hcont =>
    intro k r hr
    rw [safe_get_go, dif_pos hlt] at hr
    dsimp only at hr
    rw [show net attempt ⟨appendQs url (some qs), mkAuthHeader auth⟩
        = HttpOutcome.httpError e from hnet] at hr
    dsimp only at hr
    rw [if_neg hcont] at hr
    dsimp only at hr
    cases k with
    | zero =>
      simp only [List.getElem?_cons_zero, Option.some.injEq] at hr
      subst hr
      rfl
    | succ k => simp at hr
  | case4 url attempt hge =>
    intro k r hr
    rw [safe_get_go, dif_neg hge] at hr
    simp at hr

/-- Behaviour of the loop when attempts `attempt, ..., M - 1` all fail with an
HTTP error and attempt `M` succeeds with `d`: the decoded JSON is returned and
one delay is slept between each pair of consecutive attempts. -/
theorem safe_get_go_eventually_succeeds {J : Type} (net : Nat → Req → HttpOutcome J)
    (params : Option String) (auth : Option (String × Option String)) (retries : Nat)
    (err : Nat → HttpErrInfo) (d : J) (M : Nat) (hM : M < retries)
    (hfail : ∀ k req, k < M → net k req = .httpError (err k))
    (hsucc : ∀ req, net M req = .success d) :
    ∀ url attempt, attempt ≤ M →
      (safe_get_go net params auth retries url attempt).result = .ok d ∧
      (safe_get_go net params auth retries url attempt).sleeps = M - attempt := by
  intro url attempt
  induction url, attempt using safe_get_go.induct net params auth retries with
  | case1 url attempt hlt url' req d0 hnet =>
    intro hle
    rcases Nat.lt_or_ge attempt M with hlt2 | hge2
    · rw [hfail attempt _ hlt2] at hnet
      cases hnet
    · have hEq : attempt = M := Nat.le_antisymm hle hge2
      subst hEq
      rw [safe_get_go, dif_pos hlt]
      dsimp only
      rw [show net attempt ⟨appendQs url params, mkAuthHeader auth⟩
          = HttpOutcome.success d from hsucc _]
      exact ⟨rfl, by simp⟩
  | case2 url attempt hlt url' req e hnet hcont ih =>
    intro hle
    have hlt2 : attempt < M := by
      rcases Nat.lt_or_ge attempt M with h | h
      · exact h
      · have hEq : attempt = M := Nat.le_antisymm hle h
        subst hEq
        rw [hsucc _] at hnet
        cases hnet
    have hrec := ih (by omega)
    rw [safe_get_go, dif_pos hlt]
    dsimp only
    rw [show net attempt ⟨appendQs url params, mkAuthHeader auth⟩
        = HttpOutcome.httpError e from hnet]
    dsimp only
    rw [if_pos hcont]
    dsimp only
    exact ⟨hrec.1, by rw [hrec.2]; omega⟩
  | case3 url attempt hlt url' req e hnet hcont =>
    intro hle
    have hEq : attempt = M := by omega
    subst hEq
    rw [hsucc _] at hnet
    cases hnet
  | case4 url attempt hge =>
    intro hle
    omega

/-- Behaviour of the loop when every attempt fails: the error of the final
attempt (`retries - 1`) is re-raised unmodified, with one delay slept between
each pair of consecutive attempts. -/
theorem safe_get_go_all_fail {J : Type} (net : Nat → Req → HttpOutcome J)
    (params : Option String) (auth : Option (String × Option String)) (retries : Nat)
    (err : Nat → HttpErrInfo)
    (hfail : ∀ k req, k < retries → net k req = .httpError (err k)) :
    ∀ url attempt, attempt < retries →
      (safe_get_go net params auth retries url attempt).result = .raised (err (retries - 1)) ∧
      (safe_get_go net params auth retries url attempt).sleeps = retries - 1 - attempt := by
  intro url attempt
  induction url, attempt using safe_get_go.induct net params auth retries with
  | case1 url attempt hlt url' req d0 hnet =>
    intro _
    rw [hfail attempt _ hlt] at hnet
    cases hnet
  | case2 url attempt hlt url' req e hnet hcont ih =>
    intro _
    have hrec := ih (by omega)
    rw [safe_get_go, dif_pos hlt]
    dsimp only
    rw [show net attempt ⟨appendQs url params, mkAuthHeader auth⟩
        = HttpOutcome.httpError e from hnet]
    dsimp only
    rw [if_pos hcont]
    dsimp only
    exact ⟨hrec.1, by rw [hrec.2]; omega⟩
  | case3 url attempt hlt url' req e hnet hcont =>
    intro _
    have he : e = err attempt := by
      rw [hfail attempt _ hlt] at hnet
      injection hnet with h
      exact h.symm
    have hlast : attempt = retries - 1 := by omega
    rw [safe_get_go, dif_pos hlt]
    dsimp only
    rw [show net attempt ⟨appendQs url params, mkAuthHeader auth⟩
        = HttpOutcome.httpError e from hnet]
    dsimp only
    rw [if_neg hcont]
    dsimp only
    subst he
    rw [hlast]
    exact ⟨rfl, by omega⟩
  | case4 url attempt hge =>
    intro h
    omega

/-- As long as attempts remain, the loop terminates by a `return` or a
`raise e`, never by falling through. -/
theorem safe_get_go_no_internal {J : Type} (net : Nat → Req → HttpOutcome J)
    (params : Option String) (auth : Option (String × Option String)) (retries : Nat) :
    ∀ url attempt, attempt < retries →
      (safe_get_go net params auth retries url attempt).result ≠ .internalException := by
  intro url attempt
  induction url, attempt using safe_get_go.induct net params auth retries with
  | case1 url attempt hlt url' req d hnet =>
    intro _
    rw [safe_get_go, dif_pos hlt]
    dsimp only
    rw [show net attempt ⟨appendQs url params, mkAuthHeader auth⟩
        = HttpOutcome.success d from hnet]
    dsimp only
    simp
  | case2 url attempt hlt url' req e hnet hcont ih =>
    intro _
    rw [safe_get_go, dif_pos hlt]
    dsimp only
    rw [show net attempt ⟨appendQs url params, mkAuthHeader auth⟩
        = HttpOutcome.httpError e from hnet]
    dsimp only
    rw [if_pos hcont]
    dsimp only
    exact ih (by omega)
  | case3 url attempt hlt url' req e hnet hcont =>
    intro _
    rw [safe_get_go, dif_pos hlt]
    dsimp only
    rw [show net attempt ⟨appendQs url params, mkAuthHeader auth⟩
        = HttpOutcome.httpError e from hnet]
    dsimp only
    rw [if_neg hcont]
    dsimp only
    simp
  | case4 url attempt hge =>
    intro h
    omega

/-- Appending a query marker and string to a URL never returns the same URL. -/
theorem append_query_ne (a b : String) : a ++ "?" ++ b ≠ a := by
  intro h
  have hl := congrArg String.length h
  rw [String.length_append, String.length_append] at hl
  have h1 : ("?" : String).length = 1 := rfl
  rw [h1] at hl
  omega

/-! ### Claim C1 -/

/-- A network that answers every request successfully, for concrete runs. -/
def netC1 : Nat → Req → HttpOutcome Nat := fun _ _ => .success 0

/-- C1 counterexample: with token `abc`, the request issued by
`help_scout_get` carries `Basic base64("abc:x")`, which differs from the
`Basic base64("abc:")` that the claim (empty password) prescribes. -/
theorem help_scout_get_empty_password_cex :
    ((help_scout_get netC1 "https://docsapi.helpscout.net/v1/articles/1" none
        (some "abc")).requests.map Req.authorization)
      = [some ("Basic " ++ b64encode ("abc" ++ ":" ++ "x"))]
    ∧ "Basic " ++ b64encode ("abc" ++ ":" ++ "x") ≠ "Basic " ++ b64encode ("abc" ++ ":") := by
  constructor
  · simp [help_scout_get, safe_get, safe_get_go, netC1, mkAuthHeader, appendQs]
  · decide

/-- C1 (amended): for every request in which a credential token is supplied,
the HTTP GET carries an Authorization header equal to `Basic` plus
`base64(token ++ ":x")` — the Basic-authentication password field is always
the literal string `x`, not the empty string. -/
theorem help_scout_get_password_is_x {J : Type} (net : Nat → Req → HttpOutcome J)
    (url : String) (params : Option String) (t : String) :
    ∀ req ∈ (help_scout_get net url params (some t)).requests,
      req.authorization = some ("Basic " ++ b64encode (t ++ ":" ++ "x")) := by
  intro req hreq
  have h := safe_get_go_auth net params (some (t, some "x")) 2 url 0 req hreq
  rw [h]
  rfl

/-- Witness for C1: the single request of a concrete successful
`help_scout_get` run with token `abc`, and its header via the theorem. -/
theorem help_scout_get_password_is_x_witness :
    (Req.mk "u" (some ("Basic " ++ b64encode ("abc" ++ ":" ++ "x")))
        ∈ (help_scout_get netC1 "u" none (some "abc")).requests)
    ∧ (Req.mk "u" (some ("Basic " ++ b64encode ("abc" ++ ":" ++ "x")))).authorization
        = some ("Basic " ++ b64encode ("abc" ++ ":" ++ "x")) := by
  have hm : Req.mk "u" (some ("Basic " ++ b64encode ("abc" ++ ":" ++ "x")))
      ∈ (help_scout_get netC1 "u" none (some "abc")).requests := by
    simp [help_scout_get, safe_get, safe_get_go, netC1, mkAuthHeader, appendQs]
  exact ⟨hm, help_scout_get_password_is_x netC1 "u" none "abc" _ hm⟩

/-! ### Claim C3 -/

/-- C3: a `safe_get` call that fails with an HTTP error on the first `N - 1`
attempts and succeeds on attempt `N` (with `N ≤ retries`) returns the decoded
JSON of the successful response, sleeping the fixed `REQUEST_DELAY` between
consecutive attempts; when all `retries` attempts fail, the HTTP error of the
final attempt is re-raised unmodified. -/
theorem safe_get_retry_policy {J : Type} (net : Nat → Req → HttpOutcome J)
    (url : String) (params : Option String) (auth : Option (String × Option String))
    (retries : Nat) (err : Nat → HttpErrInfo) (d : J) (N : Nat) :
    ((1 ≤ N) → (N ≤ retries) →
      (∀ k req, k < N - 1 → net k req = .httpError (err k)) →
      (∀ req, net (N - 1) req = .success d) →
      (safe_get net url params auth retries).result = .ok d ∧
      (safe_get net url params auth retries).sleeps * REQUEST_DELAY = N - 1)
    ∧ ((1 ≤ retries) →
      (∀ k req, k < retries → net k req = .httpError (err k)) →
      (safe_get net url params auth retries).result = .raised (err (retries - 1)) ∧
      (safe_get net url params auth retries).sleeps * REQUEST_DELAY = retries - 1) := by
  constructor
  · intro hN hNr hfail hsucc
    have h := safe_get_go_eventually_succeeds net params auth retries err d (N - 1)
      (by omega) hfail hsucc url 0 (by omega)
    refine ⟨by rw [safe_get]; exact h.1, ?_⟩
    rw [safe_get, show REQUEST_DELAY = 1 from rfl, Nat.mul_one, h.2]
    omega
  · intro hr hfail
    have h := safe_get_go_all_fail net params auth retries err hfail url 0 (by omega)
    refine ⟨by rw [safe_get]; exact h.1, ?_⟩
    rw [safe_get, show REQUEST_DELAY = 1 from rfl, Nat.mul_one, h.2]
    omega

/-- A network failing on the first attempt and succeeding on the second. -/
def netC3 : Nat → Req → HttpOutcome Nat := fun k _ =>
  if k = 0 then .httpError ⟨"HTTPError", "HTTP Error 500: Internal Server Error"⟩
  else .success 42

/-- The error reported by each failing attempt of `netC3`. -/
def errC3 : Nat → HttpErrInfo :=
  fun _ => ⟨"HTTPError", "HTTP Error 500: Internal Server Error"⟩

/-- Witness for C3: one failure then one success within the default two
attempts returns the decoded value with one slept delay. -/
theorem safe_get_retry_policy_witness :
    (1 ≤ 2) ∧
    ((safe_get netC3 "u" none none 2).result = .ok 42 ∧
      (safe_get netC3 "u" none none 2).sleeps * REQUEST_DELAY = 2 - 1) := by
  refine ⟨by decide, ?_⟩
  exact (safe_get_retry_policy netC3 "u" none none 2 errC3 42 2).1 (by decide) (by decide)
    (fun k req hk => by
      have hk0 : k = 0 := by omega
      subst hk0
      rfl)
    (fun req => rfl)

/-! ### Claim C8 -/

/-- C8: for `retries ≥ 1`, `safe_get` either returns decoded JSON or re-raises
an HTTP error from inside the loop; the trailing bare `raise Exception` after
the loop is unreachable. -/
theorem safe_get_loop_always_returns_or_raises {J : Type} (net : Nat → Req → HttpOutcome J)
    (url : String) (params : Option String) (auth : Option (String × Option String))
    (retries : Nat) (hr : 1 ≤ retries) :
    ((∃ d, (safe_get net url params auth retries).result = .ok d) ∨
      (∃ e, (safe_get net url params auth retries).result = .raised e)) ∧
    (safe_get net url params auth retries).result ≠ .internalException := by
  have h2 : (safe_get net url params auth retries).result ≠ .internalException := by
    rw [safe_get]
    exact safe_get_go_no_internal net params auth retries url 0 (by omega)
  refine ⟨?_, h2⟩
  cases hres : (safe_get net url params auth retries).result with
  | ok d => exact Or.inl ⟨d, rfl⟩
  | raised e => exact Or.inr ⟨e, rfl⟩
  | internalException => exact absurd hres h2

/-- A network that always succeeds, for the C8 witness. -/
def netC8 : Nat → Req → HttpOutcome Nat := fun _ _ => .success 7

/-- Witness for C8 at the default `retries = 2`. -/
theorem safe_get_loop_always_returns_or_raises_witness :
    (1 ≤ 2) ∧
    (((∃ d, (safe_get netC8 "u" none none 2).result = .ok d) ∨
        (∃ e, (safe_get netC8 "u" none none 2).result = .raised e)) ∧
      (safe_get netC8 "u" none none 2).result ≠ .internalException) :=
  ⟨by decide, safe_get_loop_always_returns_or_raises netC8 "u" none none 2 (by decide)⟩

/-! ### Claim C10 -/

/-- C10: with a nonempty params dict, the encoded query string is appended to
the URL inside the retry loop, so the request at offset `k` carries the
parameters appended `k + 1` times; in particular, after a first-attempt HTTP
error the second attempt does not request the same URL as the first. -/
theorem safe_get_reappends_params {J : Type} (net : Nat → Req → HttpOutcome J)
    (url qs : String) (auth : Option (String × Option String)) (retries : Nat)
    (e : HttpErrInfo) (h2 : 2 ≤ retries)
    (hfail : net 0 ⟨url ++ "?" ++ qs, mkAuthHeader auth⟩ = .httpError e) :
    (∀ (k : Nat) (req : Req),
        ((safe_get net url (some qs) auth retries).requests)[k]? = some req →
        req.url = appendedK url qs (k + 1))
    ∧ ((safe_get net url (some qs) auth retries).requests)[0]?
        = some ⟨appendedK url qs 1, mkAuthHeader auth⟩
    ∧ ((safe_get net url (some qs) auth retries).requests)[1]?
        = some ⟨appendedK url qs 2, mkAuthHeader auth⟩
    ∧ appendedK url qs 2 ≠ appendedK url qs 1 := by
  have h0 : 0 < retries := by omega
  have hcont : 0 < retries - 1 := by omega
  have hreq : (safe_get net url (some qs) auth retries).requests
      = ⟨appendQs url (some qs), mkAuthHeader auth⟩ ::
        (safe_get_go net (some qs) auth retries (appendQs url (some qs)) 1).requests := by
    rw [safe_get, safe_get_go, dif_pos h0]
    dsimp only
    rw [show net 0 ⟨appendQs url (some qs), mkAuthHeader auth⟩
        = HttpOutcome.httpError e from hfail]
    dsimp only
    rw [if_pos hcont]
  refine ⟨?_, ?_, ?_, ?_⟩
  · intro k req h
    have h1 := safe_get_go_req_shape net qs auth retries url 0 k req (by rw [safe_get] at h; exact h)
    rw [h1]
  · rw [hreq, List.getElem?_cons_zero]
    rfl
  · rw [hreq]
    simp only [List.getElem?_cons_succ]
    have hne := safe_get_go_requests_ne_nil net (some qs) auth retries
      (appendQs url (some qs)) 1 (by omega)
    obtain ⟨t0, rest, htail⟩ := List.exists_cons_of_ne_nil hne
    rw [htail]
    have h1 := safe_get_go_req_shape net qs auth retries (appendQs url (some qs)) 1 0 t0
      (by rw [htail, List.getElem?_cons_zero])
    rw [List.getElem?_cons_zero, h1,
      show appendQs url (some qs) = url ++ "?" ++ qs from rfl, appendedK_shift]
  · exact fun h => append_query_ne (appendedK url qs 1) qs h

/-- A network whose first attempt fails, for the C10 witness. -/
def netC10 : Nat → Req → HttpOutcome Nat := fun k _ =>
  if k = 0 then .httpError ⟨"HTTPError", "HTTP Error 404: Not Found"⟩ else .success 0

/-- Witness for C10 at `retries = 2` with query string `page=1`. -/
theorem safe_get_reappends_params_witness :
    (2 ≤ 2) ∧
    netC10 0 ⟨"u" ++ "?" ++ "page=1", mkAuthHeader none⟩
      = .httpError ⟨"HTTPError", "HTTP Error 404: Not Found"⟩ ∧
    ((∀ (k : Nat) (req : Req),
        ((safe_get netC10 "u" (some "page=1") none 2).requests)[k]? = some req →
        req.url = appendedK "u" "page=1" (k + 1))
      ∧ ((safe_get netC10 "u" (some "page=1") none 2).requests)[0]?
          = some ⟨appendedK "u" "page=1" 1, mkAuthHeader none⟩
      ∧ ((safe_get netC10 "u" (some "page=1") none 2).requests)[1]?
          = some ⟨appendedK "u" "page=1" 2, mkAuthHeader none⟩
      ∧ appendedK "u" "page=1" 2 ≠ appendedK "u" "page=1" 1) := by
  refine ⟨by decide, rfl, ?_⟩
  exact safe_get_reappends_params netC10 "u" "page=1" none 2
    ⟨"HTTPError", "HTTP Error 404: Not Found"⟩ (by decide) rfl

/-! ### Lemmas about the pagination walker -/

/-- Invariant run of the pagination loop over a well-formed `P`-page server:
starting just after page `j - 1` with `n = P + 1 - j` pages left, the loop
appends the items of pages `j..P` in order and requests exactly those pages. -/
theorem get_paged_go_run {E : Type} (server : Nat → Page E) (P : Nat)
    (hwf : ∀ k, 1 ≤ k → k ≤ P → (server k).page = k ∧ (server k).pages = P) :
    ∀ n j fuel (acc : List E) (fet : List Nat),
      j + n = P + 1 → 1 ≤ j → n ≤ fuel →
      get_paged_go server fuel (some (j - 1, P)) j acc fet
        = some (acc ++ pagesItems server j n, fet ++ pageRange j n) := by
  intro n
  induction n with
  | zero =>
    intro j fuel acc fet hjn hj hnf
    have hj2 : j = P + 1 := by omega
    subst hj2
    rw [get_paged_go.eq_def, if_neg]
    · simp [pagesItems, pageRange]
    · simp only [pagedLoopCond, decide_eq_true_eq]
      omega
  | succ n ih =>
    intro j fuel acc fet hjn hj hnf
    obtain ⟨fuel2, rfl⟩ : ∃ f, fuel = f + 1 := ⟨fuel - 1, by omega⟩
    rw [get_paged_go, if_pos]
    swap
    · simp only [pagedLoopCond, decide_eq_true_eq]
      omega
    dsimp only
    obtain ⟨hp, hpp⟩ := hwf j (by omega) (by omega)
    rw [hp, hpp]
    have h := ih (j + 1) fuel2 (acc ++ (server j).items) (fet ++ [j])
      (by omega) (by omega) (by omega)
    rw [show j + 1 - 1 = j from by omega] at h
    rw [h, List.append_assoc, List.append_assoc]
    rfl

/-! ### Claim C4 -/

/-- C4: over a well-formed paginated endpoint with `P ≥ 1` pages, the walker
returns the concatenation of the items of pages `1..P` in increasing page
order (no deduplication: the result is literally the concatenation), of
length equal to the sum of the per-page item counts, requesting pages
`1, 2, ..., P`. -/
theorem get_paged_concatenates_pages {E : Type} (server : Nat → Page E) (P fuel : Nat)
    (hP : 1 ≤ P) (hfuel : P ≤ fuel)
    (hwf : ∀ k, 1 ≤ k → k ≤ P → (server k).page = k ∧ (server k).pages = P) :
    get_paged server fuel = some (pagesItems server 1 P, pageRange 1 P)
    ∧ (pagesItems server 1 P).length
        = ((pageRange 1 P).map (fun k => (server k).items.length)).sum := by
  have hlen : ∀ m i, (pagesItems server i m).length
      = ((pageRange i m).map (fun k => (server k).items.length)).sum := by
    intro m
    induction m with
    | zero => intro i; rfl
    | succ m ih => intro i; simp [pagesItems, pageRange, ih]
  refine ⟨?_, hlen P 1⟩
  obtain ⟨P2, rfl⟩ : ∃ p, P = p + 1 := ⟨P - 1, by omega⟩
  obtain ⟨fuel2, rfl⟩ : ∃ f, fuel = f + 1 := ⟨fuel - 1, by omega⟩
  rw [get_paged, get_paged_go, if_pos (show pagedLoopCond none = true from rfl)]
  dsimp only
  obtain ⟨hp, hpp⟩ := hwf 1 (by omega) (by omega)
  rw [hp, hpp]
  have h := get_paged_go_run server (P2 + 1) hwf P2 2 fuel2
    ([] ++ (server 1).items) ([] ++ [1]) (by omega) (by omega) (by omega)
  rw [show (2 : Nat) - 1 = 1 from rfl] at h
  rw [h]
  simp only [List.nil_append]
  rfl

/-- A two-page server whose pages overlap on one item, for the C4 witness. -/
def srvC4 : Nat → Page String := fun n =>
  if n = 1 then ⟨1, 2, ["a", "b"]⟩
  else if n = 2 then ⟨2, 2, ["b", "c"]⟩
  else ⟨n, 2, []⟩

/-- Witness for C4: two overlapping pages concatenate to a four-item list,
the duplicate surviving once per occurrence. -/
theorem get_paged_concatenates_pages_witness :
    (1 ≤ 2) ∧
    (get_paged srvC4 2 = some (pagesItems srvC4 1 2, pageRange 1 2)
      ∧ (pagesItems srvC4 1 2).length
          = ((pageRange 1 2).map (fun k => (srvC4 k).items.length)).sum) ∧
    pagesItems srvC4 1 2 = ["a", "b", "b", "c"] := by
  refine ⟨by decide, ?_, by decide⟩
  exact get_paged_concatenates_pages srvC4 2 2 (by decide) (by decide)
    (by
      intro k h1 h2
      interval_cases k
      · exact ⟨rfl, rfl⟩
      · exact ⟨rfl, rfl⟩)

/-! ### Claim C2 -/

/-- C2 (amended): when the first response reports a page number at least its
page count (with the well-formed first page number 1 this means `pages ≤ 1`,
covering the `pages = 0` case), the walker stops after page 1, requests no
second page, and returns exactly the items of page 1 — so it returns the
empty sequence precisely when the items of page 1 are empty. -/
theorem get_paged_single_page {E : Type} (server : Nat → Page E) (fuel : Nat)
    (hfuel : 1 ≤ fuel) (hpage : (server 1).page = 1) (hpages : (server 1).pages ≤ 1) :
    get_paged server fuel = some ((server 1).items, [1]) := by
  obtain ⟨fuel2, rfl⟩ : ∃ f, fuel = f + 1 := ⟨fuel - 1, by omega⟩
  rw [get_paged, get_paged_go, if_pos (show pagedLoopCond none = true from rfl)]
  dsimp only
  rw [hpage]
  rw [get_paged_go.eq_def, if_neg]
  · simp
  · simp only [pagedLoopCond, decide_eq_true_eq]
    omega

/-- A server reporting zero total pages but a nonempty first page. -/
def srvC2A : Nat → Page String := fun _ => ⟨1, 0, ["a"]⟩

/-- A server reporting two total pages with an empty first page. -/
def srvC2B : Nat → Page String := fun n =>
  if n = 1 then ⟨1, 2, []⟩ else ⟨2, 2, ["b"]⟩

/-- C2 counterexample: with `pages = 0` and a nonempty page 1 the walker
returns a nonempty sequence (refuting the empty-result part of the claim),
and with empty page-1 items but `pages = 2` it requests page 2 (refuting the
no-second-request part): the requested-page list is `[1, 2]`. -/
theorem get_paged_empty_guard_cex :
    (srvC2A 1).pages = 0
    ∧ get_paged srvC2A 10 = some (["a"], [1])
    ∧ (["a"] : List String) ≠ []
    ∧ (srvC2B 1).items = []
    ∧ get_paged srvC2B 10 = some (["b"], [1, 2]) := by
  refine ⟨rfl, by decide, by decide, rfl, by decide⟩

/-- A one-page server for the C2 witness. -/
def srvC2W : Nat → Page String := fun _ => ⟨1, 1, ["x"]⟩

/-- Witness for C2 (amended) on a concrete one-page server. -/
theorem get_paged_single_page_witness :
    (1 ≤ 10) ∧ (srvC2W 1).page = 1 ∧ (srvC2W 1).pages ≤ 1
    ∧ get_paged srvC2W 10 = some ((srvC2W 1).items, [1]) :=
  ⟨by decide, rfl, by decide,
    get_paged_single_page srvC2W 10 (by decide) rfl (by decide)⟩

/-! ### Lemmas about `unique_filename` -/

/-- Invariant run of the `unique_filename` probe loop: entered at probe index
`k` (suffix `suffixOf k`, counter `k + 1`) with the next `m` candidates taken
and candidate `k + m` free, it returns candidate `k + m`. -/
theorem unique_filename_go_spec (fs : String → Bool) (base ext : String) :
    ∀ m k fuel,
      fs (candidate base ext (k + m)) = false →
      (∀ i, k ≤ i → i < k + m → fs (candidate base ext i) = true) →
      m < fuel →
      unique_filename_go fs base ext fuel (suffixOf k) (k + 1)
        = some (candidate base ext (k + m)) := by
  intro m
  induction m with
  | zero =>
    intro k fuel hfree hbusy hf
    obtain ⟨f, rfl⟩ : ∃ f, fuel = f + 1 := ⟨fuel - 1, by omega⟩
    rw [unique_filename_go]
    have h0 : fs (base ++ suffixOf k ++ ext) = false := by
      have := hfree
      rw [Nat.add_zero] at this
      exact this
    rw [if_neg (by rw [h0]; simp)]
    rw [Nat.add_zero]
    rfl
  | succ m ih =>
    intro k fuel hfree hbusy hf
    obtain ⟨f, rfl⟩ : ∃ f, fuel = f + 1 := ⟨fuel - 1, by omega⟩
    rw [unique_filename_go]
    have hk : fs (base ++ suffixOf k ++ ext) = true := hbusy k (Nat.le_refl k) (by omega)
    rw [if_pos hk]
    have heq : k + (m + 1) = k + 1 + m := by omega
    rw [heq]
    rw [show ("-" ++ toString (k + 1) : String) = suffixOf (k + 1) from rfl]
    exact ih (k + 1) f
      (by rw [show k + 1 + m = k + (m + 1) from by omega]; exact hfree)
      (fun i h1 h2 => hbusy i (by omega) (by omega))
      (by omega)

/-- Every name `unique_filename` returns is one of the probed candidates. -/
theorem unique_filename_go_shape (fs : String → Bool) (base ext : String) :
    ∀ fuel k p,
      unique_filename_go fs base ext fuel (suffixOf k) (k + 1) = some p →
      ∃ n, p = candidate base ext n := by
  intro fuel
  induction fuel with
  | zero =>
    intro k p h
    rw [unique_filename_go] at h
    cases h
  | succ fuel ih =>
    intro k p h
    rw [unique_filename_go] at h
    by_cases hb : fs (base ++ suffixOf k ++ ext) = true
    · rw [if_pos hb] at h
      rw [show ("-" ++ toString (k + 1) : String) = suffixOf (k + 1) from rfl] at h
      exact ih (k + 1) p h
    · rw [if_neg hb] at h
      injection h with h2
      exact ⟨k, h2.symm⟩

/-- Every name the top-level `unique_filename` returns is a probed candidate. -/
theorem unique_filename_shape (fs : String → Bool) (base ext : String)
    (fuel : Nat) (p : String) (h : unique_filename fs base ext fuel = some p) :
    ∃ n, p = candidate base ext n := by
  apply unique_filename_go_shape fs base ext fuel 0 p
  rw [show suffixOf 0 = "" from rfl, show (0 : Nat) + 1 = 1 from rfl]
  rw [unique_filename] at h
  exact h

/-! ### Claim C5 -/

/-- C5: with only `foo.json` present, `unique_filename` picks `foo-1.json`;
with `foo.json` and `foo-1.json` present it picks `foo-2.json`; and in
general it returns the first candidate of the sequence `base.json`,
`base-1.json`, `base-2.json`, ... that does not exist at call time. -/
theorem unique_filename_first_free :
    unique_filename (fun s => s == "foo.json") "foo" ".json" 10 = some "foo-1.json"
    ∧ unique_filename (fun s => s == "foo.json" || s == "foo-1.json") "foo" ".json" 10
        = some "foo-2.json"
    ∧ ∀ (fs : String → Bool) (base ext : String) (n fuel : Nat),
        fs (candidate base ext n) = false →
        (∀ k, k < n → fs (candidate base ext k) = true) →
        n < fuel →
        unique_filename fs base ext fuel = some (candidate base ext n) := by
  refine ⟨by decide, by decide, ?_⟩
  intro fs base ext n fuel hfree hbusy hfuel
  have h := unique_filename_go_spec fs base ext n 0 fuel
    (by rw [Nat.zero_add]; exact hfree)
    (fun i h1 h2 => hbusy i (by omega))
    hfuel
  rw [unique_filename]
  rw [show ("" : String) = suffixOf 0 from rfl, show (1 : Nat) = 0 + 1 from rfl]
  rw [h, Nat.zero_add]

/-- Witness for C5: the general first-free-candidate statement applied to a
directory containing only `foo.json`. -/
theorem unique_filename_first_free_witness :
    ((fun s => s == "foo.json") (candidate "foo" ".json" 1) = false)
    ∧ (1 : Nat) < 5
    ∧ unique_filename (fun s => s == "foo.json") "foo" ".json" 5
        = some (candidate "foo" ".json" 1) :=
  ⟨by decide, by decide,
    unique_filename_first_free.2.2 (fun s => s == "foo.json") "foo" ".json" 1 5
      (by decide)
      (fun k hk => by
        have hk0 : k = 0 := by omega
        subst hk0
        decide)
      (by decide)⟩

/-! ### Claim C6 -/

/-- C6: when the resolved output directory already exists, `main` stops with
the nonzero `parser.error` status 2, makes no network call, writes no file
and creates no directory — the pre-existing directory is untouched. -/
theorem main_refuses_existing_directory (pager : Nat → Page Json)
    (hsGet : String → Option Json) (collection_id : String) (pfuel ufuel : Nat) :
    main_run pager hsGet collection_id true pfuel ufuel
      = (MainResult.usageError 2, ⟨[], [], false⟩) ∧ (2 : Nat) ≠ 0 :=
  ⟨rfl, by decide⟩

/-! ### Lemmas about `fetch_articles` -/

/-- The `articles` accumulator of the fetch loop is returned unchanged: the
source never appends to it. -/
theorem fetch_loop_articles_const (hsGet : String → Option Json) (ufuel : Nat) :
    ∀ (ids : List Int) (dirFiles : List String) (articles arts : List Json)
      (d : List String),
      (fetch_loop hsGet ids dirFiles articles ufuel).1 = FetchResult.finished arts d →
      arts = articles := by
  intro ids
  induction ids with
  | nil =>
    intro dirFiles articles arts d h
    rw [fetch_loop] at h
    injection h with h1 h2
    exact h1.symm
  | cons id rest ih =>
    intro dirFiles articles arts d h
    rw [fetch_loop] at h
    cases hg : hsGet (articleUrl id) with
    | none => rw [hg] at h; cases h
    | some data =>
      rw [hg] at h
      dsimp only at h
      cases ha : data.get "article" with
      | none => rw [ha] at h; cases h
      | some article =>
        rw [ha] at h
        dsimp only at h
        cases hs : article.get "slug" with
        | none => rw [hs] at h; cases h
        | some slugJson =>
          rw [hs] at h
          cases slugJson with
          | str slug =>
            dsimp only at h
            cases hu : unique_filename (fun s => dirFiles.contains s) slug ".json" ufuel with
            | none => rw [hu] at h; cases h
            | some path =>
              rw [hu] at h
              dsimp only at h
              exact ih (dirFiles ++ [path]) articles arts d h
          | num n => cases h
          | obj fields => cases h
          | arr elems => cases h

/-- Run of the fetch loop when every fetch succeeds with a well-formed
document: one file per article id is written, in order, each write carrying
the full fetched document with `indent = 2` under a name whose base is the
slug of the inner `article` object. -/
theorem fetch_loop_writes_spec (hsGet : String → Option Json) (ufuel : Nat)
    (doc : Int → Json) (slug : Int → String) :
    ∀ (ids : List Int) (dirFiles : List String) (articles arts : List Json)
      (d : List String),
      (∀ id ∈ ids, hsGet (articleUrl id) = some (doc id)) →
      (∀ id ∈ ids, ∃ art, (doc id).get "article" = some art
          ∧ art.get "slug" = some (Json.str (slug id))) →
      (fetch_loop hsGet ids dirFiles articles ufuel).1 = FetchResult.finished arts d →
      List.Forall₂ (fun id w => w.content = doc id ∧ w.indent = 2
          ∧ ∃ n, w.path = candidate (slug id) ".json" n)
        ids (fetch_loop hsGet ids dirFiles articles ufuel).2.2 := by
  intro ids
  induction ids with
  | nil =>
    intro dirFiles articles arts d _ _ _
    rw [fetch_loop]
    exact List.Forall₂.nil
  | cons id rest ih =>
    intro dirFiles articles arts d hdoc hslug hfin
    have hdoc0 := hdoc id (List.mem_cons_self id rest)
    obtain ⟨art, hart, hslg⟩ := hslug id (List.mem_cons_self id rest)
    rw [fetch_loop] at hfin ⊢
    rw [hdoc0] at hfin ⊢
    dsimp only at hfin ⊢
    rw [hart] at hfin ⊢
    dsimp only at hfin ⊢
    rw [hslg] at hfin ⊢
    dsimp only at hfin ⊢
    cases hu : unique_filename (fun s => dirFiles.contains s) (slug id) ".json" ufuel with
    | none =>
      rw [hu] at hfin
      dsimp only at hfin
      cases hfin
    | some path =>
      rw [hu] at hfin
      dsimp only at hfin ⊢
      refine List.Forall₂.cons ⟨rfl, rfl, ?_⟩ ?_
      · exact unique_filename_shape _ _ _ _ _ hu
      · exact ih (dirFiles ++ [path]) articles arts d
          (fun i hi => hdoc i (List.mem_cons_of_mem _ hi))
          (fun i hi => hslug i (List.mem_cons_of_mem _ hi)) hfin

/-! ### Claim C7 -/

/-- C7: in a completed export run over a fresh directory, one file is written
per fetched article, in input order; each write stores the entire fetched
JSON document (the envelope keyed by `article`, not just the inner object)
with `indent = 2`, under a file name whose base is the `slug` of the inner
object. -/
theorem fetch_articles_writes_full_documents (hsGet : String → Option Json)
    (ids : List Int) (ufuel : Nat) (doc : Int → Json) (slug : Int → String)
    (arts : List Json) (d : List String)
    (hdoc : ∀ id ∈ ids, hsGet (articleUrl id) = some (doc id))
    (hslug : ∀ id ∈ ids, ∃ art, (doc id).get "article" = some art
        ∧ art.get "slug" = some (Json.str (slug id)))
    (hfin : (fetch_articles hsGet ids false ufuel).1 = FetchResult.finished arts d) :
    List.Forall₂ (fun id w => w.content = doc id ∧ w.indent = 2
        ∧ ∃ n, w.path = candidate (slug id) ".json" n)
      ids (fetch_articles hsGet ids false ufuel).2.2.1 :=
  fetch_loop_writes_spec hsGet ufuel doc slug ids [] [] arts d hdoc hslug hfin

/-- The document served for the C7 witness: a full envelope keyed by
`article` whose inner object carries slug `getting-started`. -/
def docC7 : Json :=
  Json.obj [("article", Json.obj [("slug", Json.str "getting-started"),
    ("text", Json.str "hello")])]

/-- A network serving `docC7` for article 5, for the C7 witness. -/
def hsGetC7 : String → Option Json := fun u =>
  if u == articleUrl 5 then some docC7 else none

/-- Witness for C7: a one-article export writes the full envelope with
`indent = 2` under the slug-based name. -/
theorem fetch_articles_writes_full_documents_witness :
    hsGetC7 (articleUrl 5) = some docC7
    ∧ (fetch_articles hsGetC7 [5] false 10).1
        = FetchResult.finished [] ["getting-started.json"]
    ∧ List.Forall₂ (fun id w => w.content = (fun _ : Int => docC7) id ∧ w.indent = 2
        ∧ ∃ n, w.path = candidate ((fun _ : Int => "getting-started") id) ".json" n)
      [5] (fetch_articles hsGetC7 [5] false 10).2.2.1 := by
  refine ⟨rfl, rfl, ?_⟩
  exact fetch_articles_writes_full_documents hsGetC7 [5] 10
    (fun _ => docC7) (fun _ => "getting-started") [] ["getting-started.json"]
    (fun id hid => by
      rcases List.mem_singleton.mp hid with rfl
      rfl)
    (fun id hid => by
      rcases List.mem_singleton.mp hid with rfl
      exact ⟨Json.obj [("slug", Json.str "getting-started"),
        ("text", Json.str "hello")], rfl, rfl⟩)
    rfl

/-! ### Claim C9 -/

/-- C9: `fetch_articles` always returns the empty list — its `articles`
accumulator is never appended to — so the final `Saved all N articles`
report of the orchestrator counts 0 articles no matter how many files were
actually written. -/
theorem fetch_articles_returns_no_articles :
    (∀ (hsGet : String → Option Json) (ids : List Int) (ufuel : Nat)
        (arts : List Json) (d : List String),
        (fetch_articles hsGet ids false ufuel).1 = FetchResult.finished arts d →
        arts = [])
    ∧ (∀ (pager : Nat → Page Json) (hsGet : String → Option Json)
        (collection_id : String) (dirExists : Bool) (pfuel ufuel n : Nat)
        (eff : RunEffects),
        export_help_scout_docs pager hsGet collection_id dirExists pfuel ufuel
          = (MainResult.completed n, eff) →
        n = 0) := by
  constructor
  · intro hsGet ids ufuel arts d h
    exact fetch_loop_articles_const hsGet ufuel ids [] [] arts d h
  · intro pager hsGet collection_id dirExists pfuel ufuel n eff h
    rw [export_help_scout_docs] at h
    cases hp : get_paged pager pfuel with
    | none => rw [hp] at h; simp at h
    | some pr =>
      obtain ⟨listed, pagesFetched⟩ := pr
      rw [hp] at h
      dsimp only at h
      cases hx : extractIds listed with
      | none => rw [hx] at h; simp at h
      | some ids =>
        rw [hx] at h
        dsimp only at h
        cases hf : (fetch_articles hsGet ids dirExists ufuel).1 with
        | exited c => rw [hf] at h; simp at h
        | raisedError => rw [hf] at h; simp at h
        | outOfFuel => rw [hf] at h; simp at h
        | finished articles ds =>
          rw [hf] at h
          dsimp only at h
          have hn : MainResult.completed articles.length = MainResult.completed n := by
            exact congrArg Prod.fst h
          injection hn with hn2
          cases dirExists with
          | true => simp [fetch_articles] at hf
          | false =>
            have hempty : articles = [] :=
              fetch_loop_articles_const hsGet ufuel ids [] [] articles ds hf
            subst hempty
            simp at hn2
            omega

/-- The document served for the C9 witness, with slug `a`. -/
def docC9 : Json := Json.obj [("article", Json.obj [("slug", Json.str "a")])]

/-- A network serving `docC9` for every article, for the C9 witness. -/
def hsGetC9 : String → Option Json := fun _ => some docC9

/-- Witness for C9: a run that writes two files still returns no articles,
so the reported count is the length of the empty list. -/
theorem fetch_articles_returns_no_articles_witness :
    (fetch_articles hsGetC9 [5, 6] false 10).1
      = FetchResult.finished [] ["a.json", "a-1.json"]
    ∧ ([] : List Json) = []
    ∧ (fetch_articles hsGetC9 [5, 6] false 10).2.2.1.length = 2 :=
  ⟨rfl,
    fetch_articles_returns_no_articles.1 hsGetC9 [5, 6] 10 [] ["a.json", "a-1.json"] rfl,
    rfl⟩

end HelpScoutExport
